import Mathlib

/-!
Verification development for the surface layout engine of the image_dds
repository (src/lib.rs): mip dimension and size arithmetic, packed-buffer
offset calculation, box-filter downsampling, and the encode/decode
orchestrators.

Modelling conventions.
The Rust machine integers u32 and usize are modelled as Nat.  The checked
operations of the source (checked_mul) are modelled against
USIZE_MAX = 2 ^ 64 - 1 (a 64-bit target).  Unchecked usize additions and
multiplications in calculate_offset are modelled with an explicit
wraparound modulo 2 ^ 64, the release-profile behaviour (a debug build
would abort instead; the theorems below carry no-overflow hypotheses where
it matters, under which the two coincide).  A Rust panic (out-of-bounds
indexing or slicing, or unwrap of None) is modelled as the value none of
an Option result type; a typed error is modelled with Except.  The
per-format block codecs live in bcn.rs and rgba.rs, which are not part of
the provided sources: the orchestrators are therefore parameterized over
the codec callable, exactly the external collaborator boundary the spec
draws for the Format Catalog dispatch targets.
-/

def USIZE_MAX : Nat := 2 ^ 64 - 1

/-- Supported image formats, from the ImageFormat enum of lib.rs. -/
inductive ImageFormat where
  | R8Unorm
  | R8G8B8A8Unorm
  | R8G8B8A8Srgb
  | R32G32B32A32Float
  | B8G8R8A8Unorm
  | B8G8R8A8Srgb
  | BC1Unorm
  | BC1Srgb
  | BC2Unorm
  | BC2Srgb
  | BC3Unorm
  | BC3Srgb
  | BC4Unorm
  | BC4Snorm
  | BC5Unorm
  | BC5Snorm
  | BC6Ufloat
  | BC6Sfloat
  | BC7Unorm
  | BC7Srgb
deriving DecidableEq, Repr

/-- Block geometry of each format (lib.rs, ImageFormat::block_dimensions). -/
def ImageFormat.block_dimensions : ImageFormat → Nat × Nat × Nat
  | .BC1Unorm => (4, 4, 1)
  | .BC1Srgb => (4, 4, 1)
  | .BC2Unorm => (4, 4, 1)
  | .BC2Srgb => (4, 4, 1)
  | .BC3Unorm => (4, 4, 1)
  | .BC3Srgb => (4, 4, 1)
  | .BC4Unorm => (4, 4, 1)
  | .BC4Snorm => (4, 4, 1)
  | .BC5Unorm => (4, 4, 1)
  | .BC5Snorm => (4, 4, 1)
  | .BC6Ufloat => (4, 4, 1)
  | .BC6Sfloat => (4, 4, 1)
  | .BC7Unorm => (4, 4, 1)
  | .BC7Srgb => (4, 4, 1)
  | .R8Unorm => (1, 1, 1)
  | .R8G8B8A8Unorm => (1, 1, 1)
  | .R8G8B8A8Srgb => (1, 1, 1)
  | .R32G32B32A32Float => (1, 1, 1)
  | .B8G8R8A8Unorm => (1, 1, 1)
  | .B8G8R8A8Srgb => (1, 1, 1)

/-- Bytes per block of each format (lib.rs, ImageFormat::block_size_in_bytes). -/
def ImageFormat.block_size_in_bytes : ImageFormat → Nat
  | .R8Unorm => 1
  | .R8G8B8A8Unorm => 4
  | .R8G8B8A8Srgb => 4
  | .R32G32B32A32Float => 16
  | .B8G8R8A8Unorm => 4
  | .B8G8R8A8Srgb => 4
  | .BC1Unorm => 8
  | .BC1Srgb => 8
  | .BC2Unorm => 16
  | .BC2Srgb => 16
  | .BC3Unorm => 16
  | .BC3Srgb => 16
  | .BC4Unorm => 8
  | .BC4Snorm => 8
  | .BC5Unorm => 16
  | .BC5Snorm => 16
  | .BC6Ufloat => 16
  | .BC6Sfloat => 16
  | .BC7Unorm => 16
  | .BC7Srgb => 16

/-- Encoder quality setting (lib.rs, Quality). Layout never depends on it. -/
inductive Quality where
  | Fast
  | Normal
  | Slow
deriving DecidableEq, Repr

/-- Mipmap policy (lib.rs, Mipmaps). -/
inductive Mipmaps where
  | Disabled
  | FromSurface
  | GeneratedExact (count : Nat)
  | GeneratedAutomatic
deriving DecidableEq, Repr

/-- Typed encode errors (lib.rs, CompressSurfaceError). -/
inductive CompressSurfaceError where
  | InvalidDimensions (width height depth : Nat)
  | NonIntegralDimensionsInBlocks (width height depth block_width block_height : Nat)
  | NotEnoughData (expected actual : Nat)
  | UnsupportedFormat (format : ImageFormat)
deriving DecidableEq, Repr

/-- Typed decode errors (lib.rs, DecompressSurfaceError). -/
inductive DecompressSurfaceError where
  | InvalidDimensions (width height : Nat)
  | NotEnoughData (expected actual : Nat)
  | UnrecognizedFormat
deriving DecidableEq, Repr

/-- Packed (compressed) surface, from surface.rs via `pub use surface::Surface`.
The byte buffer is a list of byte values. -/
structure Surface where
  width : Nat
  height : Nat
  depth : Nat
  layers : Nat
  mipmaps : Nat
  image_format : ImageFormat
  data : List Nat
deriving DecidableEq, Repr

/-- Uncompressed RGBA8 surface, from surface.rs via `pub use surface::SurfaceRgba8`. -/
structure SurfaceRgba8 where
  width : Nat
  height : Nat
  depth : Nat
  layers : Nat
  mipmaps : Nat
  data : List Nat
deriving DecidableEq, Repr

/-- lib.rs max_mipmap_count: `u32::BITS - max_dimension.leading_zeros()`,
the binary length of a 32-bit value, written as an executable scan of the
32 bit positions (for every `m < 2 ^ 32` this is 0 when `m = 0` and
`floor (log2 m) + 1` otherwise). -/
def max_mipmap_count (max_dimension : Nat) : Nat :=
  ((List.range 32).filter (fun i => decide (0 < max_dimension >>> i))).length

/-- lib.rs mip_dimension: `(dim >> mipmap).max(1)`. -/
def mip_dimension (dim mipmap : Nat) : Nat :=
  max (dim >>> mipmap) 1

/-- lib.rs div_round_up: `(x + d - 1) / d`.  Every caller in the library
passes a positive divisor (block dimensions are 1 or 4). -/
def div_round_up (x d : Nat) : Nat :=
  (x + d - 1) / d

/-- Rust usize::checked_mul on a 64-bit target. -/
def checked_mul (a b : Nat) : Option Nat :=
  if a * b ≤ USIZE_MAX then some (a * b) else none

/-- lib.rs mip_size: the three ceil-division factors and the block byte
size multiplied with checked_mul, chained with and_then (here bind). -/
def mip_size (width height depth block_width block_height block_depth block_size_in_bytes : Nat) :
    Option Nat :=
  (checked_mul (div_round_up width block_width) (div_round_up height block_height)).bind
    (fun v => (checked_mul v (div_round_up depth block_depth)).bind
      (fun v2 => checked_mul v2 block_size_in_bytes))

/-- lib.rs calculate_offset.  The source unwraps each mip_size (a checked-mul
overflow therefore panics: none here), and slices `mip_sizes[0..mipmap]`,
which panics when `mipmap` exceeds the vector length `mipmaps_per_layer`
(none here).  The unchecked usize sum and product wrap modulo 2 ^ 64 in a
release build; iterated wrapping addition of a list equals its total sum
modulo 2 ^ 64, which is how the wraparound is written below. -/
def calculate_offset (layer mipmap : Nat) (dimensions : Nat × Nat × Nat)
    (block_dimensions : Nat × Nat × Nat) (block_size_in_bytes : Nat)
    (mipmaps_per_layer : Nat) : Option Nat :=
  match (List.range mipmaps_per_layer).mapM (fun i =>
      mip_size (mip_dimension dimensions.1 i) (mip_dimension dimensions.2.1 i)
        (mip_dimension dimensions.2.2 i) block_dimensions.1 block_dimensions.2.1
        block_dimensions.2.2 block_size_in_bytes) with
  | none => none
  | some mip_sizes =>
    if mipmap ≤ mipmaps_per_layer then
      let layer_size := mip_sizes.sum % (USIZE_MAX + 1)
      let layer_offset := layer * layer_size % (USIZE_MAX + 1)
      let mip_offset := (mip_sizes.take mipmap).sum % (USIZE_MAX + 1)
      some ((layer_offset + mip_offset) % (USIZE_MAX + 1))
    else none

/-- The eight (z2, y2, x2) loop-counter triples of the 2x2x2 averaging loops
of lib.rs downsample_rgba8, in source iteration order (z outer, x2 inner). -/
def sampleOffsets : List (Nat × Nat × Nat) :=
  [(0, 0, 0), (0, 0, 1), (0, 1, 0), (0, 1, 1), (1, 0, 0), (1, 0, 1), (1, 1, 0), (1, 1, 1)]

/-- One iteration of the innermost accumulation of downsample_rgba8: when the
sampled voxel lies inside the source extent, `sum += data[index * 4 + c]` and
`count += 1`; the indexing panics (none) when the byte is out of bounds.
The source checks `sampled_z < depth` once around the inner two loops; the
conjunction here is the same test distributed to each sample. -/
def addSample (width height depth : Nat) (data : List Nat) (c sz sy sx : Nat)
    (acc : Option (Nat × Nat)) : Option (Nat × Nat) :=
  match acc with
  | none => none
  | some a =>
    if sz < depth ∧ sy < height ∧ sx < width then
      match data[(sz * width * height + sy * width + sx) * 4 + c]? with
      | some v => some (a.1 + v, a.2 + 1)
      | none => none
    else some a

/-- The (sum, count) accumulation for one destination voxel and channel of
downsample_rgba8. -/
def downsampleSumCount (width height depth : Nat) (data : List Nat) (x y z c : Nat) :
    Option (Nat × Nat) :=
  sampleOffsets.foldl
    (fun acc o => addSample width height depth data c (z * 2 + o.1) (y * 2 + o.2.1)
      (x * 2 + o.2.2) acc)
    (some (0, 0))

/-- lib.rs downsample_rgba8.  The source allocates `vec![0u8; total]` and its
loops write the byte at position `(z * nw * nh + y * nw + x) * 4 + c` exactly
once for every z < nd, y < nh, x < nw, c < 4 (the position determines the
loop counters uniquely), so the buffer is generated here position by
position, recovering (x, y, z, c) from the position.  The final
`(sum as f64 / count as f64) as u8` truncates the mean toward zero: for byte
data and 1 <= count <= 8 that equals Nat floor division, and for count = 0
the NaN saturating-cast yields 0, which again equals Nat division 0 / 0. -/
def downsample_rgba8 (width height depth min_width min_height min_depth : Nat)
    (data : List Nat) : Option (List Nat) :=
  let new_width := max (width / 2) min_width
  let new_height := max (height / 2) min_height
  let new_depth := max (depth / 2) min_depth
  (List.range (new_width * new_height * new_depth * 4)).mapM (fun p =>
    (downsampleSumCount width height depth data (p / 4 % new_width)
      (p / 4 / new_width % new_height) (p / 4 / (new_width * new_height)) (p % 4)).map
      (fun sc => sc.1 / sc.2))

/-- The FromSurface zero-padding loop of encode_surface_rgba8 (lib.rs
lines 386-401): allocate `vec![0u8; expected_size]`, then for z, y, x set
`padded_data[i] = data[i]` with `i = (z * mip_width * mip_height) +
y * mip_width + x` used for both sides.  Reading `data[i]` panics (none)
when i is out of bounds of the slice. -/
def pad_mip_data (mip_width mip_height mip_depth : Nat) (data : List Nat) :
    Option (List Nat) :=
  (List.range mip_depth).foldl (fun accz z =>
    (List.range mip_height).foldl (fun accy y =>
      (List.range mip_width).foldl (fun accx x =>
        match accx with
        | none => none
        | some padded =>
          match data[z * mip_width * mip_height + y * mip_width + x]? with
          | some v => some (padded.set (z * mip_width * mip_height + y * mip_width + x) v)
          | none => none) accy) accz)
    (some (List.replicate (mip_width * mip_height * mip_depth * 4) 0))

/-- Modelled from the spec: SurfaceRgba8::get_image_data lives in the
repository file surface.rs, which is not among the provided sources.  Per
the spec (section 3 invariant of SurfaceRgba8 and section 4.4 case (a)), it
slices the caller declared per-level data: the level of index `mipmap` in
layer `layer` starts after all earlier layers and levels, each of unpadded
byte size `mip_w * mip_h * mip_d * 4` at the declared dimensions, and has
that unpadded size; the slice is None when the backing buffer is too
short. -/
def SurfaceRgba8.get_image_data (surface : SurfaceRgba8) (layer mipmap : Nat) :
    Option (List Nat) :=
  let level_size := fun i =>
    mip_dimension surface.width i * mip_dimension surface.height i *
      mip_dimension surface.depth i * 4
  let layer_size := ((List.range surface.mipmaps).map level_size).sum
  let offset := layer * layer_size + ((List.range mipmap).map level_size).sum
  let size := level_size mipmap
  if offset + size ≤ surface.data.length then
    some ((surface.data.drop offset).take size)
  else none

/-- The per-format encoder callable (encode_rgba8 of lib.rs dispatches on the
format to the codecs of bcn.rs and rgba.rs, which are not among the provided
sources; the orchestrator is parameterized over that external capability).
Arguments: width, height, depth, rgba8 data, format, quality. -/
abbrev EncodeFn :=
  Nat → Nat → Nat → List Nat → ImageFormat → Quality → Except CompressSurfaceError (List Nat)

/-- The mip loop `for mipmap in 1..num_mipmaps` of encode_surface_rgba8,
processed as structural recursion over the list of loop indices.  State:
the accumulated surface_data and the previous mip_image buffer.  Under
FromSurface the unwrap of get_image_data panics (none) when the slice is
unavailable; otherwise the next source image is the padded slice or the
downsampled previous level, then it is encoded and appended. -/
def encode_mip_levels (encode_rgba8 : EncodeFn) (surface : SurfaceRgba8)
    (format : ImageFormat) (quality : Quality)
    (width height depth block_width block_height block_depth : Nat)
    (use_surface : Bool) (surface_data mip_image : List Nat) :
    List Nat → Option (Except CompressSurfaceError (List Nat))
  | [] => some (.ok surface_data)
  | mipmap :: rest =>
    let mip_width := max (mip_dimension width mipmap) block_width
    let mip_height := max (mip_dimension height mipmap) block_height
    let mip_depth := max (mip_dimension depth mipmap) block_depth
    let next_image :=
      if use_surface then
        match surface.get_image_data 0 mipmap with
        | none => none
        | some data =>
          let expected_size := mip_width * mip_height * mip_depth * 4
          if data.length < expected_size then
            pad_mip_data mip_width mip_height mip_depth data
          else
            some data
      else
        downsample_rgba8 mip_width mip_height mip_depth block_width block_height
          block_depth mip_image
    match next_image with
    | none => none
    | some mip_image2 =>
      match encode_rgba8 mip_width mip_height mip_depth mip_image2 format quality with
      | .error e => some (.error e)
      | .ok mip_data =>
        encode_mip_levels encode_rgba8 surface format quality width height depth
          block_width block_height block_depth use_surface (surface_data ++ mip_data)
          mip_image2 rest

/-- lib.rs encode_surface_rgba8, parameterized over the per-format encoder.
The outer Option models a panic, the inner Except the typed error result. -/
def encode_surface_rgba8 (encode_rgba8 : EncodeFn) (surface : SurfaceRgba8)
    (format : ImageFormat) (quality : Quality) (mipmaps : Mipmaps) :
    Option (Except CompressSurfaceError Surface) :=
  let width := surface.width
  let height := surface.height
  let depth := surface.depth
  let block_width := format.block_dimensions.1
  let block_height := format.block_dimensions.2.1
  let block_depth := format.block_dimensions.2.2
  if width % block_width ≠ 0 ∨ height % block_height ≠ 0 then
    some (.error (.NonIntegralDimensionsInBlocks width height depth block_width block_height))
  else
    let num_mipmaps :=
      match mipmaps with
      | .Disabled => 1
      | .FromSurface => surface.mipmaps
      | .GeneratedExact count => count
      | .GeneratedAutomatic => max_mipmap_count (max (max width height) depth)
    let use_surface := decide (mipmaps = Mipmaps.FromSurface)
    match encode_rgba8 (max width block_width) (max height block_height)
        (max depth block_depth) surface.data format quality with
    | .error e => some (.error e)
    | .ok base_data =>
      match encode_mip_levels encode_rgba8 surface format quality width height depth
          block_width block_height block_depth use_surface base_data surface.data
          (List.range' 1 (num_mipmaps - 1)) with
      | none => none
      | some (.error e) => some (.error e)
      | some (.ok surface_data) =>
        some (.ok (Surface.mk width height depth 1 num_mipmaps format surface_data))

/-- The pixel-producing part of a per-format decoder.  The size validation of
every decoder is modelled below in decode_data_rgba8; the actual per-pixel
bit manipulation of bcn.rs and rgba.rs is the abstracted capability. -/
abbrev PixelFn := Nat → Nat → Nat → ImageFormat → List Nat → List Nat

/-- Modelled from the spec: decode_data_rgba8 of lib.rs dispatches to the
per-format decoders of bcn.rs and rgba.rs, which are not among the provided
sources.  Per spec section 4.1, decoding requires the input to hold at least
the block-rounded byte size for the level dimensions and signals an
insufficient-data error (NotEnoughData with the expectation and the actual
length) otherwise; the decoded pixel content itself is the abstract
parameter. -/
def decode_data_rgba8 (pix : PixelFn) (width height depth : Nat) (format : ImageFormat)
    (data : List Nat) : Except DecompressSurfaceError (List Nat) :=
  let expected := div_round_up width format.block_dimensions.1 *
    div_round_up height format.block_dimensions.2.1 *
    div_round_up depth format.block_dimensions.2.2 * format.block_size_in_bytes
  if data.length < expected then
    .error (.NotEnoughData expected data.length)
  else
    .ok (pix width height depth format data)

/-- The nested `for layer / for mipmap` loops of decode_surface_rgba8,
processed as structural recursion over the list of (layer, mipmap) pairs in
source iteration order.  Each level: compute the offset (a panic inside
calculate_offset propagates as none), slice `&data[offset..]` (which panics,
none, when offset exceeds the buffer length), decode, and append in order. -/
def decode_mip_levels (pix : PixelFn) (width height depth : Nat) (format : ImageFormat)
    (data : List Nat) (mipmaps : Nat) :
    List (Nat × Nat) → Option (Except DecompressSurfaceError (List Nat))
  | [] => some (.ok [])
  | (layer, mipmap) :: rest =>
    match calculate_offset layer mipmap (width, height, depth) format.block_dimensions
        format.block_size_in_bytes mipmaps with
    | none => none
    | some offset =>
      if offset ≤ data.length then
        match decode_data_rgba8 pix (mip_dimension width mipmap)
            (mip_dimension height mipmap) (mip_dimension depth mipmap) format
            (data.drop offset) with
        | .error e => some (.error e)
        | .ok level =>
          match decode_mip_levels pix width height depth format data mipmaps rest with
          | none => none
          | some (.error e) => some (.error e)
          | some (.ok restData) => some (.ok (level ++ restData))
      else none

/-- The (layer, mipmap) iteration space of decode_surface_rgba8 in source
order: layer major, mipmap minor. -/
def layer_mip_pairs (layers mipmaps : Nat) : List (Nat × Nat) :=
  (List.range layers).flatMap (fun layer =>
    (List.range mipmaps).map (fun mipmap => (layer, mipmap)))

/-- lib.rs decode_surface_rgba8, parameterized over the per-format pixel
decoder.  The outer Option models a panic, the inner Except the typed error
result; on success the decoded levels are the layer-major mip-major
concatenation. -/
def decode_surface_rgba8 (pix : PixelFn) (surface : Surface) :
    Option (Except DecompressSurfaceError SurfaceRgba8) :=
  match decode_mip_levels pix surface.width surface.height surface.depth
      surface.image_format surface.data surface.mipmaps
      (layer_mip_pairs surface.layers surface.mipmaps) with
  | none => none
  | some (.error e) => some (.error e)
  | some (.ok combined) =>
    some (.ok (SurfaceRgba8.mk surface.width surface.height surface.depth surface.layers
      surface.mipmaps combined))

/-- Refinement comparison definition, following the spec words (sections
4.4 (a) and 9) rather than the source: the block-padded level buffer is
zero-filled at the full expected size `mw * mh * md * 4` and the overlapping
top-left rectangle is copied with source and destination strides respected:
the destination pixel (x, y, z) inside the rectangle takes each of its 4
channel bytes from the source pixel (x, y, z) addressed at the declared
source dimensions `sw, sh, sd`. -/
def pad_mip_data_top_left_spec (mw mh md sw sh sd : Nat) (data : List Nat) : List Nat :=
  (List.range (mw * mh * md * 4)).map (fun p =>
    let c := p % 4
    let idx := p / 4
    let x := idx % mw
    let y := idx / mw % mh
    let z := idx / (mw * mh)
    if x < sw ∧ y < sh ∧ z < sd then
      data.getD ((z * sw * sh + y * sw + x) * 4 + c) 0
    else 0)

/-- The 2x2x2 neighborhood of a destination voxel that lies within the
source extent, as a filtered list of absolute (z, y, x) sample coordinates,
in source iteration order. -/
def mip_neighborhood (width height depth x y z : Nat) : List (Nat × Nat × Nat) :=
  (sampleOffsets.map (fun o => (z * 2 + o.1, y * 2 + o.2.1, x * 2 + o.2.2))).filter
    (fun s => decide (s.1 < depth) && decide (s.2.1 < height) && decide (s.2.2 < width))

/-- The byte sampled by downsample_rgba8 at absolute coordinates (z, y, x)
for channel c. -/
def sample_value (width height : Nat) (data : List Nat) (c : Nat) (s : Nat × Nat × Nat) : Nat :=
  data.getD ((s.1 * width * height + s.2.1 * width + s.2.2) * 4 + c) 0

/-- An encoder that returns its input bytes unchanged; used to observe the
pixel buffers the orchestrator feeds to the per-format codec. -/
def identity_encoder : EncodeFn := fun _ _ _ data _ _ => .ok data

/-- An encoder that always succeeds with a fixed one-byte output. -/
def const_byte_encoder : EncodeFn := fun _ _ _ _ _ _ => .ok [7]

/-- An encoder that always fails, recording the width, height and depth it was
called with inside the error payload. -/
def probe_encoder : EncodeFn := fun width height depth _ _ _ =>
  .error (.NotEnoughData ((width * 4294967296 + height) * 4294967296 + depth) 0)

/-- A pixel decoder that ignores its input. -/
def null_pixels : PixelFn := fun _ _ _ _ _ => []

/-- The 16 bytes 1..16, the declared level-1 data of the C1 evaluation. -/
def level1_bytes : List Nat := (List.range 16).map (fun i => i + 1)

/-- Closed form of mip_size: the three left-to-right checked products must
each stay within USIZE_MAX, and then the value is the full product. -/
theorem mip_size_closed_form (w h d bw bh bd bytes : Nat) :
    mip_size w h d bw bh bd bytes =
      if div_round_up w bw * div_round_up h bh ≤ USIZE_MAX ∧
          div_round_up w bw * div_round_up h bh * div_round_up d bd ≤ USIZE_MAX ∧
          div_round_up w bw * div_round_up h bh * div_round_up d bd * bytes ≤ USIZE_MAX then
        some (div_round_up w bw * div_round_up h bh * div_round_up d bd * bytes)
      else none := by
  by_cases h1 : div_round_up w bw * div_round_up h bh ≤ USIZE_MAX <;>
    by_cases h2 : div_round_up w bw * div_round_up h bh * div_round_up d bd ≤ USIZE_MAX <;>
      by_cases h3 : div_round_up w bw * div_round_up h bh * div_round_up d bd * bytes ≤
        USIZE_MAX <;>
        simp [mip_size, checked_mul, h1, h2, h3]

/-- Rejection of non-block-aligned base dimensions happens before anything
else in encode_surface_rgba8, for every encoder and policy. -/
theorem encode_nonintegral_reject (enc : EncodeFn) (surface : SurfaceRgba8)
    (format : ImageFormat) (quality : Quality) (mipmaps : Mipmaps)
    (h : surface.width % format.block_dimensions.1 ≠ 0 ∨
      surface.height % format.block_dimensions.2.1 ≠ 0) :
    encode_surface_rgba8 enc surface format quality mipmaps =
      some (.error (.NonIntegralDimensionsInBlocks surface.width surface.height
        surface.depth format.block_dimensions.1 format.block_dimensions.2.1)) := by
  unfold encode_surface_rgba8
  rw [if_pos h]

/-- C2: the claim states that violating the precondition `mip <
levels_per_layer` (or a layer outside the declared layer count) makes the
level-offset computation yield a typed bounds error.  The code instead
panics: with mipmap = 2 and mipmaps_per_layer = 1 the slice
`mip_sizes[0..2]` is out of range, modelled as none, and the usize return
type of calculate_offset has no error channel at all; moreover any layer
value, here 1000000 with no layer count even passed in, is accepted without
a bounds check. -/
theorem c2_calculate_offset_panics_on_out_of_range_mip :
    calculate_offset 0 2 (4, 4, 1) (1, 1, 1) 4 1 = none ∧
    calculate_offset 1000000 0 (4, 4, 1) (1, 1, 1) 4 1 = some 64000000 := by
  constructor <;> rfl

/-- C3: evaluation of the code at the failing input GeneratedExact 0.  The
claim (and the doc comment of Mipmaps::GeneratedExact) says a count of 0
behaves as Disabled, i.e. one level; the code instead returns a Surface
reporting 0 mipmaps while still encoding and emitting the base level, unlike
Disabled which reports 1. -/
theorem c3_generated_exact_zero_diverges_from_disabled :
    encode_surface_rgba8 const_byte_encoder (SurfaceRgba8.mk 4 4 1 1 1 (List.replicate 64 0))
        .R8G8B8A8Unorm .Fast (.GeneratedExact 0) =
      some (.ok (Surface.mk 4 4 1 1 0 .R8G8B8A8Unorm [7])) ∧
    encode_surface_rgba8 const_byte_encoder (SurfaceRgba8.mk 4 4 1 1 1 (List.replicate 64 0))
        .R8G8B8A8Unorm .Fast .Disabled =
      some (.ok (Surface.mk 4 4 1 1 1 .R8G8B8A8Unorm [7])) := by
  constructor <;> rfl

/-- C1: evaluation of the FromSurface padding path at a failing input.  A
4x4x1 surface declares 2 levels; level 1 is the 16-byte slice 1..16 of the
caller data (third conjunct), shorter than the block-padded 64-byte target.
The claim says the level buffer is then produced by a stride-respecting
copy of the overlapping top-left rectangle; the code instead performs a flat
byte copy `padded_data[i] = data[i]` over voxel indices, so the emitted
level-1 buffer is the 16 source bytes followed by 48 zeros (first conjunct),
which differs from the stride-aware top-left padding the claim and the
source comment describe (second conjunct). -/
theorem c1_from_surface_padding_is_flat_copy :
    encode_surface_rgba8 identity_encoder
        (SurfaceRgba8.mk 4 4 1 1 2 (List.replicate 64 1 ++ level1_bytes))
        .BC7Unorm .Fast .FromSurface =
      some (.ok (Surface.mk 4 4 1 1 2 .BC7Unorm
        ((List.replicate 64 1 ++ level1_bytes) ++ (level1_bytes ++ List.replicate 48 0)))) ∧
    level1_bytes ++ List.replicate 48 0 ≠
      pad_mip_data_top_left_spec 4 4 1 2 2 1 level1_bytes ∧
    (SurfaceRgba8.mk 4 4 1 1 2 (List.replicate 64 1 ++ level1_bytes)).get_image_data 0 1 =
      some level1_bytes := by
  refine ⟨rfl, by decide, rfl⟩

/-- C5: whenever the base width is not a multiple of the block width or the
base height is not a multiple of the block height, encode_surface_rgba8
returns NonIntegralDimensionsInBlocks carrying the offending dimensions,
for every encoder, buffer, quality and policy; depth takes no part in the
test. -/
theorem c5_nonintegral_dimensions_rejected (enc : EncodeFn) (surface : SurfaceRgba8)
    (format : ImageFormat) (quality : Quality) (mipmaps : Mipmaps)
    (h : surface.width % format.block_dimensions.1 ≠ 0 ∨
      surface.height % format.block_dimensions.2.1 ≠ 0) :
    encode_surface_rgba8 enc surface format quality mipmaps =
      some (.error (.NonIntegralDimensionsInBlocks surface.width surface.height
        surface.depth format.block_dimensions.1 format.block_dimensions.2.1)) :=
  encode_nonintegral_reject enc surface format quality mipmaps h

/-- Witness for C5 at the concrete input of the claim: base 3x5x2 against the
(4,4,1)-block format BC7Srgb with an ample 256-byte buffer. -/
theorem c5_witness :
    encode_surface_rgba8 const_byte_encoder (SurfaceRgba8.mk 3 5 2 1 1 (List.replicate 256 0))
        .BC7Srgb .Fast .GeneratedAutomatic =
      some (.error (.NonIntegralDimensionsInBlocks 3 5 2 4 4)) :=
  c5_nonintegral_dimensions_rejected const_byte_encoder
    (SurfaceRgba8.mk 3 5 2 1 1 (List.replicate 256 0)) .BC7Srgb .Fast .GeneratedAutomatic
    (by decide)

/-- C7 counterexample: the claim says downsample never fails and an
undersized input produces a zero-filled minimum-size output; but with source
extent 2x2x1 and an empty buffer the code indexes out of bounds (a panic,
modelled none) instead of returning the zero-filled 4-byte output. -/
theorem c7_counterexample_undersized_input_panics :
    downsample_rgba8 2 2 1 1 1 1 [] = none ∧
    downsample_rgba8 2 2 1 1 1 1 [] ≠ some (List.replicate (1 * 1 * 1 * 4) 0) := by
  refine ⟨rfl, by decide⟩

/-- C9 counterexample: with width = height = 2 ^ 40, depth = 0, unit blocks
and 16 block bytes, the full product is 0 and perfectly representable, yet
mip_size returns none because the intermediate product of the first two
ceil-divisions exceeds USIZE_MAX. -/
theorem c9_counterexample_zero_depth_overflow :
    div_round_up 1099511627776 1 * div_round_up 1099511627776 1 * div_round_up 0 1 * 16 = 0 ∧
    mip_size 1099511627776 1099511627776 0 1 1 1 16 = none := by
  refine ⟨by decide, rfl⟩

/-- C9 amended: mip_size returns the product of the three ceil-divisions and
the block byte size exactly when each left-to-right checked intermediate
product stays within the machine-word maximum, and signals overflow (none)
otherwise; when a later factor is zero the full product can be representable
while an intermediate still overflows. -/
theorem c9_mip_size_checked_closed_form (w h d bw bh bd bytes : Nat) :
    mip_size w h d bw bh bd bytes =
      if div_round_up w bw * div_round_up h bh ≤ USIZE_MAX ∧
          div_round_up w bw * div_round_up h bh * div_round_up d bd ≤ USIZE_MAX ∧
          div_round_up w bw * div_round_up h bh * div_round_up d bd * bytes ≤ USIZE_MAX then
        some (div_round_up w bw * div_round_up h bh * div_round_up d bd * bytes)
      else none :=
  mip_size_closed_form w h d bw bh bd bytes

/-- C4 counterexample: a surface whose buffer (empty) is far too short for
its single declared level, but whose level size computation overflows the
checked multiplication inside calculate_offset: decode_surface_rgba8 panics
on the unwrap (modelled none) instead of returning the NotEnoughData typed
error the claim requires for every too-short input. -/
theorem c4_counterexample_overflow_panics :
    decode_surface_rgba8 null_pixels
        (Surface.mk 4294967295 4294967295 4294967295 1 1 .R8G8B8A8Unorm []) = none ∧
    ([] : List Nat).length < 4294967295 * 4294967295 * 4294967295 * 4 := by
  refine ⟨rfl, by decide⟩

/-- The shifted and extent-filtered sample list for an arbitrary prefix of
the loop-counter triples; mip_neighborhood is this at the full list. -/
def shifted_filtered (width height depth x y z : Nat) (os : List (Nat × Nat × Nat)) :
    List (Nat × Nat × Nat) :=
  (os.map (fun o => (z * 2 + o.1, y * 2 + o.2.1, x * 2 + o.2.2))).filter
    (fun s => decide (s.1 < depth) && decide (s.2.1 < height) && decide (s.2.2 < width))

/-- Every in-extent sample byte of downsample_rgba8 lies inside a buffer
that covers the source extent. -/
theorem sample_index_lt (w h d len sx sy sz c : Nat) (hb : w * h * d * 4 ≤ len)
    (hc : c < 4) (h1 : sz < d) (h2 : sy < h) (h3 : sx < w) :
    (sz * w * h + sy * w + sx) * 4 + c < len := by
  have e1 : (sy + 1) * w ≤ h * w := Nat.mul_le_mul_right w h2
  have e2 : (sz + 1) * (w * h) ≤ d * (w * h) := Nat.mul_le_mul_right (w * h) h1
  have r1 : (sy + 1) * w = sy * w + w := by ring
  have r2 : (sz + 1) * (w * h) = sz * (w * h) + w * h := by ring
  have r3 : sz * (w * h) = sz * w * h := by ring
  have r4 : h * w = w * h := by ring
  have r5 : d * (w * h) = w * h * d := by ring
  omega

/-- Accumulation of the 2x2x2 sampling loop over any list of loop-counter
triples: the result collects the sum and the count of the in-extent
samples. -/
theorem addSample_foldl_eq (w h d : Nat) (data : List Nat) (c x y z : Nat)
    (hb : w * h * d * 4 ≤ data.length) (hc : c < 4) :
    ∀ (os : List (Nat × Nat × Nat)) (a : Nat × Nat),
      os.foldl (fun acc o => addSample w h d data c (z * 2 + o.1) (y * 2 + o.2.1)
        (x * 2 + o.2.2) acc) (some a) =
      some (a.1 + ((shifted_filtered w h d x y z os).map (sample_value w h data c)).sum,
        a.2 + (shifted_filtered w h d x y z os).length) := by
  intro os
  induction os with
  | nil => intro a; simp [shifted_filtered]
  | cons o os ih =>
    intro a
    rw [List.foldl_cons]
    by_cases hin : z * 2 + o.1 < d ∧ y * 2 + o.2.1 < h ∧ x * 2 + o.2.2 < w
    · have hidx : ((z * 2 + o.1) * w * h + (y * 2 + o.2.1) * w + (x * 2 + o.2.2)) * 4 + c <
          data.length :=
        sample_index_lt w h d data.length (x * 2 + o.2.2) (y * 2 + o.2.1) (z * 2 + o.1) c hb hc
          hin.1 hin.2.1 hin.2.2
      have hget : data[((z * 2 + o.1) * w * h + (y * 2 + o.2.1) * w + (x * 2 + o.2.2)) * 4 + c]? =
          some (data.getD (((z * 2 + o.1) * w * h + (y * 2 + o.2.1) * w + (x * 2 + o.2.2)) * 4 + c) 0) := by
        rw [List.getElem?_eq_getElem hidx, List.getD_eq_getElem _ _ hidx]
      have hstep : addSample w h d data c (z * 2 + o.1) (y * 2 + o.2.1) (x * 2 + o.2.2) (some a) =
          some (a.1 + data.getD (((z * 2 + o.1) * w * h + (y * 2 + o.2.1) * w +
            (x * 2 + o.2.2)) * 4 + c) 0, a.2 + 1) := by
        simp only [addSample]
        rw [if_pos hin, hget]
      rw [hstep, ih]
      have hsf : shifted_filtered w h d x y z (o :: os) =
          (z * 2 + o.1, y * 2 + o.2.1, x * 2 + o.2.2) :: shifted_filtered w h d x y z os := by
        simp [shifted_filtered, hin.1, hin.2.1, hin.2.2]
      rw [hsf]
      simp only [List.map_cons, List.sum_cons, List.length_cons, sample_value,
        Option.some.injEq, Prod.mk.injEq]
      constructor <;> omega
    · have hstep : addSample w h d data c (z * 2 + o.1) (y * 2 + o.2.1) (x * 2 + o.2.2) (some a) =
          some a := by
        simp only [addSample]
        rw [if_neg hin]
      rw [hstep, ih]
      have hsf : shifted_filtered w h d x y z (o :: os) = shifted_filtered w h d x y z os := by
        simp only [shifted_filtered, List.map_cons, List.filter_cons]
        have hcond : ¬(decide (z * 2 + o.1 < d) && decide (y * 2 + o.2.1 < h) &&
            decide (x * 2 + o.2.2 < w)) = true := by
          simpa using hin
        simp [hcond]
      rw [hsf]

/-- The per-voxel sum and count of downsample_rgba8 in terms of the
in-extent neighborhood, for a buffer that covers the source extent. -/
theorem downsampleSumCount_eq (w h d : Nat) (data : List Nat) (x y z c : Nat)
    (hb : w * h * d * 4 ≤ data.length) (hc : c < 4) :
    downsampleSumCount w h d data x y z c =
      some (((mip_neighborhood w h d x y z).map (sample_value w h data c)).sum,
        (mip_neighborhood w h d x y z).length) := by
  have := addSample_foldl_eq w h d data c x y z hb hc sampleOffsets (0, 0)
  simpa [downsampleSumCount, mip_neighborhood, shifted_filtered] using this

/-- When f succeeds pointwise, Option-valued mapM collects the pointwise
values. -/
theorem mapM_option_of_forall_some {α β : Type} (f : α → Option β) (g : α → β) :
    ∀ (l : List α), (∀ a ∈ l, f a = some (g a)) → l.mapM f = some (l.map g) := by
  intro l
  induction l with
  | nil => intro; rfl
  | cons a l ih =>
    intro H
    rw [List.mapM_cons, H a (by simp), ih (fun b hb => H b (by simp [hb]))]
    rfl

/-- Characterization of downsample_rgba8 on a buffer that covers the source
extent: it succeeds, the output has exactly the clamped-half byte size, and
every destination voxel channel is the truncated mean of the in-extent
2x2x2 neighborhood samples. -/
theorem downsample_rgba8_spec (w h d mw mh md : Nat) (data : List Nat)
    (hb : w * h * d * 4 ≤ data.length) :
    ∃ out, downsample_rgba8 w h d mw mh md data = some out ∧
      out.length = max (w / 2) mw * max (h / 2) mh * max (d / 2) md * 4 ∧
      ∀ x y z c, x < max (w / 2) mw → y < max (h / 2) mh → z < max (d / 2) md → c < 4 →
        out.getD ((z * (max (w / 2) mw * max (h / 2) mh) + y * max (w / 2) mw + x) * 4 + c) 0 =
          ((mip_neighborhood w h d x y z).map (sample_value w h data c)).sum /
            (mip_neighborhood w h d x y z).length := by
  set nw := max (w / 2) mw with hnw
  set nh := max (h / 2) mh with hnh
  set nd := max (d / 2) md with hnd
  have hmapM : (List.range (nw * nh * nd * 4)).mapM (fun p =>
      (downsampleSumCount w h d data (p / 4 % nw) (p / 4 / nw % nh) (p / 4 / (nw * nh))
        (p % 4)).map (fun sc => sc.1 / sc.2)) =
      some ((List.range (nw * nh * nd * 4)).map (fun p =>
        ((mip_neighborhood w h d (p / 4 % nw) (p / 4 / nw % nh) (p / 4 / (nw * nh))).map
          (sample_value w h data (p % 4))).sum /
          (mip_neighborhood w h d (p / 4 % nw) (p / 4 / nw % nh) (p / 4 / (nw * nh))).length)) := by
    apply mapM_option_of_forall_some
    intro p hp
    rw [downsampleSumCount_eq w h d data _ _ _ _ hb (Nat.mod_lt _ (by norm_num))]
    rfl
  have hds : downsample_rgba8 w h d mw mh md data =
      some ((List.range (nw * nh * nd * 4)).map (fun p =>
        ((mip_neighborhood w h d (p / 4 % nw) (p / 4 / nw % nh) (p / 4 / (nw * nh))).map
          (sample_value w h data (p % 4))).sum /
          (mip_neighborhood w h d (p / 4 % nw) (p / 4 / nw % nh) (p / 4 / (nw * nh))).length)) := by
    unfold downsample_rgba8
    exact hmapM
  refine ⟨_, hds, ?_, ?_⟩
  · simp
  · intro x y z c hx hy hz hc
    have hq : z * (nw * nh) + y * nw + x = z * nw * nh + y * nw + x := by ring
    have hplt : (z * (nw * nh) + y * nw + x) * 4 + c < nw * nh * nd * 4 := by
      have := sample_index_lt nw nh nd (nw * nh * nd * 4) x y z c (le_refl _) hc hz hy hx
      omega
    have hlen : (z * (nw * nh) + y * nw + x) * 4 + c <
        ((List.range (nw * nh * nd * 4)).map (fun p =>
          ((mip_neighborhood w h d (p / 4 % nw) (p / 4 / nw % nh) (p / 4 / (nw * nh))).map
            (sample_value w h data (p % 4))).sum /
            (mip_neighborhood w h d (p / 4 % nw) (p / 4 / nw % nh)
              (p / 4 / (nw * nh))).length)).length := by
      simpa using hplt
    rw [List.getD_eq_getElem _ _ hlen, List.getElem_map, List.getElem_range]
    have h4a : ((z * (nw * nh) + y * nw + x) * 4 + c) / 4 = z * (nw * nh) + y * nw + x := by
      omega
    have h4b : ((z * (nw * nh) + y * nw + x) * 4 + c) % 4 = c := by
      omega
    have hnwpos : 0 < nw := by omega
    have hxr : (z * (nw * nh) + y * nw + x) % nw = x := by
      have e : z * (nw * nh) + y * nw + x = nw * (z * nh + y) + x := by ring
      rw [e, Nat.mul_add_mod, Nat.mod_eq_of_lt hx]
    have hyr : (z * (nw * nh) + y * nw + x) / nw % nh = y := by
      have e : z * (nw * nh) + y * nw + x = nw * (z * nh + y) + x := by ring
      rw [e, Nat.mul_add_div hnwpos, Nat.div_eq_of_lt hx, Nat.add_zero]
      have e2 : z * nh + y = nh * z + y := by ring
      rw [e2, Nat.mul_add_mod, Nat.mod_eq_of_lt hy]
    have hzr : (z * (nw * nh) + y * nw + x) / (nw * nh) = z := by
      have e : z * (nw * nh) + y * nw + x = nw * nh * z + (y * nw + x) := by ring
      have hpos2 : 0 < nw * nh := by
        have : 0 < nh := by omega
        exact Nat.mul_pos hnwpos this
      have hlt2 : y * nw + x < nw * nh := by
        have h5 : (y + 1) * nw ≤ nh * nw := Nat.mul_le_mul_right nw hy
        have h6 : (y + 1) * nw = y * nw + nw := by ring
        have h7 : nh * nw = nw * nh := by ring
        omega
      rw [e, Nat.mul_add_div hpos2, Nat.div_eq_of_lt hlt2, Nat.add_zero]
    rw [h4a, h4b, hxr, hyr, hzr]

/-- C6: for every geometry and an input covering the source extent,
downsample_rgba8 succeeds with output size exactly
`max(w/2,mw) * max(h/2,mh) * max(d/2,md) * 4`, and every destination voxel
channel equals the truncated mean of that channel over exactly the source
voxels of the corresponding 2x2x2 neighborhood lying inside the source
extent (no wraparound or replication); and the 4x4x1 checkerboard of
alternating black and white pixels downsamples to the uniform 2x2 image of
value 127 in all channels. -/
theorem c6_downsample_mean_of_in_extent_neighborhood :
    (∀ (w h d mw mh md : Nat) (data : List Nat), w * h * d * 4 ≤ data.length →
      ∃ out, downsample_rgba8 w h d mw mh md data = some out ∧
        out.length = max (w / 2) mw * max (h / 2) mh * max (d / 2) md * 4 ∧
        ∀ x y z c, x < max (w / 2) mw → y < max (h / 2) mh → z < max (d / 2) md → c < 4 →
          out.getD ((z * (max (w / 2) mw * max (h / 2) mh) + y * max (w / 2) mw + x) * 4 + c) 0 =
            ((mip_neighborhood w h d x y z).map (sample_value w h data c)).sum /
              (mip_neighborhood w h d x y z).length) ∧
    downsample_rgba8 4 4 1 1 1 1
        ((List.replicate 8 ([0, 0, 0, 0, 255, 255, 255, 255] : List Nat)).flatten) =
      some (List.replicate (2 * 2 * 1 * 4) 127) := by
  refine ⟨?_, by rfl⟩
  intro w h d mw mh md data hb
  exact downsample_rgba8_spec w h d mw mh md data hb

/-- Witness for C6 at a concrete covered input: a uniform 2x2x1 image of
byte value 8. -/
theorem c6_witness :
    ∃ out, downsample_rgba8 2 2 1 1 1 1 (List.replicate 16 8) = some out ∧
      out.length = max (2 / 2) 1 * max (2 / 2) 1 * max (1 / 2) 1 * 4 ∧
      ∀ x y z c, x < max (2 / 2) 1 → y < max (2 / 2) 1 → z < max (1 / 2) 1 → c < 4 →
        out.getD ((z * (max (2 / 2) 1 * max (2 / 2) 1) + y * max (2 / 2) 1 + x) * 4 + c) 0 =
          ((mip_neighborhood 2 2 1 x y z).map
            (sample_value 2 2 (List.replicate 16 8) c)).sum /
            (mip_neighborhood 2 2 1 x y z).length :=
  c6_downsample_mean_of_in_extent_neighborhood.1 2 2 1 1 1 1 (List.replicate 16 8) (by decide)

/-- C7 amended: downsample_rgba8 is total with output length exactly
`new_w * new_h * new_d * 4` whenever the input buffer covers the source
extent, in particular whenever the source extent is empty, so the empty
input of the spec example downsample(0,0,1,1,1,1,[]) produces exactly 4
zero bytes; an undersized buffer with a nonempty source extent instead
faults on out-of-bounds indexing (see the counterexample). -/
theorem c7_downsample_total_when_input_covers_extent :
    (∀ (w h d mw mh md : Nat) (data : List Nat), w * h * d * 4 ≤ data.length →
      ∃ out, downsample_rgba8 w h d mw mh md data = some out ∧
        out.length = max (w / 2) mw * max (h / 2) mh * max (d / 2) md * 4) ∧
    downsample_rgba8 0 0 1 1 1 1 [] = some [0, 0, 0, 0] := by
  refine ⟨?_, by rfl⟩
  intro w h d mw mh md data hb
  obtain ⟨out, h1, h2, _⟩ := downsample_rgba8_spec w h d mw mh md data hb
  exact ⟨out, h1, h2⟩

/-- Witness for C7 at a concrete covered input: a 2x2x2 volume of byte
value 5 downsamples to a single voxel, 4 bytes. -/
theorem c7_witness :
    ∃ out, downsample_rgba8 2 2 2 1 1 1 (List.replicate 32 5) = some out ∧
      out.length = max (2 / 2) 1 * max (2 / 2) 1 * max (2 / 2) 1 * 4 :=
  c7_downsample_total_when_input_covers_extent.1 2 2 2 1 1 1 (List.replicate 32 5) (by decide)

/-- Option-valued mapM determines the length of its result. -/
theorem optionMapM_length {α β : Type} (f : α → Option β) :
    ∀ (l : List α) (res : List β), l.mapM f = some res → res.length = l.length := by
  intro l
  induction l with
  | nil => intro res hres; cases hres; rfl
  | cons a l ih =>
    intro res hres
    rw [List.mapM_cons] at hres
    cases hfa : f a with
    | none => rw [hfa] at hres; cases hres
    | some b =>
      rw [hfa] at hres
      cases hml : l.mapM f with
      | none => rw [hml] at hres; cases hres
      | some bs =>
        rw [hml] at hres
        cases hres
        simp [ih bs hml]

/-- Every element of an Option-valued mapM result comes from some input
element. -/
theorem optionMapM_mem {α β : Type} (f : α → Option β) :
    ∀ (l : List α) (res : List β), l.mapM f = some res →
      ∀ b ∈ res, ∃ a ∈ l, f a = some b := by
  intro l
  induction l with
  | nil => intro res hres; cases hres; intro b hb; cases hb
  | cons a l ih =>
    intro res hres
    rw [List.mapM_cons] at hres
    cases hfa : f a with
    | none => rw [hfa] at hres; cases hres
    | some b0 =>
      rw [hfa] at hres
      cases hml : l.mapM f with
      | none => rw [hml] at hres; cases hres
      | some bs =>
        rw [hml] at hres
        cases hres
        intro b hb
        rcases List.mem_cons.mp hb with hb0 | hbs
        · exact ⟨a, List.mem_cons_self a l, hb0 ▸ hfa⟩
        · obtain ⟨a2, ha2, hfa2⟩ := ih bs hml b hbs
          exact ⟨a2, List.mem_cons_of_mem a ha2, hfa2⟩

/-- Pointwise reading of an Option-valued mapM result. -/
theorem optionMapM_getD {α β : Type} (f : α → Option β) (dl : α) (db : β) :
    ∀ (l : List α) (res : List β), l.mapM f = some res →
      ∀ i, i < l.length → f (l.getD i dl) = some (res.getD i db) := by
  intro l
  induction l with
  | nil => intro res hres i hi; cases hi
  | cons a l ih =>
    intro res hres i hi
    rw [List.mapM_cons] at hres
    cases hfa : f a with
    | none => rw [hfa] at hres; cases hres
    | some b0 =>
      rw [hfa] at hres
      cases hml : l.mapM f with
      | none => rw [hml] at hres; cases hres
      | some bs =>
        rw [hml] at hres
        cases hres
        cases i with
        | zero => simpa using hfa
        | succ i =>
          simp only [List.getD_cons_succ]
          exact ih bs hml i (by simpa using hi)

/-- Sum of a take extended by one element. -/
theorem sum_take_succ_getD :
    ∀ (l : List Nat) (m : Nat), m < l.length →
      (l.take (m + 1)).sum = (l.take m).sum + l.getD m 0 := by
  intro l
  induction l with
  | nil => intro m hm; cases hm
  | cons a l ih =>
    intro m hm
    cases m with
    | zero => simp
    | succ m =>
      simp only [List.take_succ_cons, List.sum_cons, List.getD_cons_succ]
      rw [ih m (by simpa using hm)]
      omega

/-- The sum of a prefix never exceeds the total sum. -/
theorem sum_take_le (l : List Nat) (m : Nat) : (l.take m).sum ≤ l.sum := by
  conv_rhs => rw [← List.take_append_drop m l]
  rw [List.sum_append]
  omega

/-- For a list of positive entries, prefix sums grow strictly with the
prefix length, as long as the longer prefix stays within the list. -/
theorem sum_take_lt_of_pos (l : List Nat) (m m2 : Nat) (hmm : m < m2) (hm2 : m2 ≤ l.length)
    (hpos : ∀ b ∈ l, 0 < b) : (l.take m).sum < (l.take m2).sum := by
  have key : ∀ k, m + k ≤ l.length → 0 < k → (l.take m).sum < (l.take (m + k)).sum := by
    intro k
    induction k with
    | zero => intro _ hk; cases hk
    | succ k ihk =>
      intro hlen _
      have hmk : m + k < l.length := by omega
      have hstep := sum_take_succ_getD l (m + k) hmk
      have hElem : 0 < l.getD (m + k) 0 := by
        apply hpos
        have : l.getD (m + k) 0 = l[m + k] := List.getD_eq_getElem l 0 hmk
        rw [this]
        exact List.getElem_mem hmk
      rcases Nat.eq_zero_or_pos k with hk0 | hkpos
      · subst hk0
        simp only [Nat.add_zero, Nat.zero_add] at hstep hElem ⊢
        omega
      · have hprev := ihk (by omega) hkpos
        rw [show m + (k + 1) = m + k + 1 from by omega]
        omega
  have := key (m2 - m) (by omega) (by omega)
  have he : m + (m2 - m) = m2 := by omega
  rw [he] at this
  exact this

/-- Positivity of mip_size under positive block geometry and byte size and
positive pixel dimensions. -/
theorem mip_size_pos (ww hh dd bw bh bd bytes s : Nat) (hbw : 0 < bw) (hbh : 0 < bh)
    (hbd : 0 < bd) (hbytes : 0 < bytes) (hww : 0 < ww) (hhh : 0 < hh) (hdd : 0 < dd)
    (hs : mip_size ww hh dd bw bh bd bytes = some s) : 0 < s := by
  rw [mip_size_closed_form] at hs
  by_cases hcond : div_round_up ww bw * div_round_up hh bh ≤ USIZE_MAX ∧
      div_round_up ww bw * div_round_up hh bh * div_round_up dd bd ≤ USIZE_MAX ∧
      div_round_up ww bw * div_round_up hh bh * div_round_up dd bd * bytes ≤ USIZE_MAX
  · rw [if_pos hcond] at hs
    have hval : s = div_round_up ww bw * div_round_up hh bh * div_round_up dd bd * bytes := by
      exact (Option.some.injEq _ _).mp hs |>.symm
    have p1 : 0 < div_round_up ww bw := by
      unfold div_round_up
      exact Nat.div_pos (by omega) hbw
    have p2 : 0 < div_round_up hh bh := by
      unfold div_round_up
      exact Nat.div_pos (by omega) hbh
    have p3 : 0 < div_round_up dd bd := by
      unfold div_round_up
      exact Nat.div_pos (by omega) hbd
    subst hval
    positivity
  · rw [if_neg hcond] at hs
    cases hs

/-- Every mip dimension is positive. -/
theorem mip_dimension_pos (dim mipmap : Nat) : 0 < mip_dimension dim mipmap := by
  unfold mip_dimension
  omega

/-- Exact value of calculate_offset when no mip size overflows and the
whole offset stays within the machine word: the wrapping reductions drop
and the result is `layer * layer_size + prefix sum`. -/
theorem calculate_offset_eq (layer mipmap : Nat) (dims bdims : Nat × Nat × Nat)
    (bytes L : Nat) (sizes : List Nat)
    (hsz : (List.range L).mapM (fun i =>
      mip_size (mip_dimension dims.1 i) (mip_dimension dims.2.1 i)
        (mip_dimension dims.2.2 i) bdims.1 bdims.2.1 bdims.2.2 bytes) = some sizes)
    (hm : mipmap ≤ L) (hfit : (layer + 1) * sizes.sum ≤ USIZE_MAX) :
    calculate_offset layer mipmap dims bdims bytes L =
      some (layer * sizes.sum + (sizes.take mipmap).sum) := by
  have hstep : calculate_offset layer mipmap dims bdims bytes L =
      if mipmap ≤ L then
        some ((layer * (sizes.sum % (USIZE_MAX + 1)) % (USIZE_MAX + 1) +
          (sizes.take mipmap).sum % (USIZE_MAX + 1)) % (USIZE_MAX + 1))
      else none := by
    unfold calculate_offset
    rw [hsz]
  rw [hstep, if_pos hm]
  have hexp : (layer + 1) * sizes.sum = layer * sizes.sum + sizes.sum := by ring
  have htake : (sizes.take mipmap).sum ≤ sizes.sum := sum_take_le sizes mipmap
  rw [Nat.mod_eq_of_lt (show sizes.sum < USIZE_MAX + 1 by omega)]
  rw [Nat.mod_eq_of_lt (show layer * sizes.sum < USIZE_MAX + 1 by omega)]
  rw [Nat.mod_eq_of_lt (show (sizes.take mipmap).sum < USIZE_MAX + 1 by omega)]
  rw [Nat.mod_eq_of_lt (show layer * sizes.sum + (sizes.take mipmap).sum < USIZE_MAX + 1 by omega)]

/-- C8: for valid geometry (positive block dimensions and block byte size,
at least one level, no overflow of the checked per-level sizes nor of the
layer arithmetic), the level offset at layer 0 mip 0 is 0, the offset at
layer k mip 0 is exactly k times the per-layer total size (the sum of all
block-rounded level sizes), and for a fixed layer the offset is strictly
increasing in the mip index over 0..levels_per_layer. -/
theorem c8_level_offset_algebra (w h d bw bh bd bytes L layer : Nat) (sizes : List Nat)
    (hbw : 0 < bw) (hbh : 0 < bh) (hbd : 0 < bd) (hbytes : 0 < bytes) (hL : 1 ≤ L)
    (hsz : (List.range L).mapM (fun i => mip_size (mip_dimension w i) (mip_dimension h i)
      (mip_dimension d i) bw bh bd bytes) = some sizes)
    (hfit : (layer + 1) * sizes.sum ≤ USIZE_MAX) :
    calculate_offset 0 0 (w, h, d) (bw, bh, bd) bytes L = some 0 ∧
    calculate_offset layer 0 (w, h, d) (bw, bh, bd) bytes L = some (layer * sizes.sum) ∧
    ∀ m m2, m < m2 → m2 < L →
      ∃ om om2, calculate_offset layer m (w, h, d) (bw, bh, bd) bytes L = some om ∧
        calculate_offset layer m2 (w, h, d) (bw, bh, bd) bytes L = some om2 ∧ om < om2 := by
  have hlen : sizes.length = L := by
    have := optionMapM_length _ _ _ hsz
    simpa using this
  have hfit0 : (0 + 1) * sizes.sum ≤ USIZE_MAX := by
    have hx : (0 + 1) * sizes.sum ≤ (layer + 1) * sizes.sum :=
      Nat.mul_le_mul_right _ (by omega)
    omega
  refine ⟨?_, ?_, ?_⟩
  · have := calculate_offset_eq 0 0 (w, h, d) (bw, bh, bd) bytes L sizes hsz (by omega) hfit0
    simpa using this
  · have := calculate_offset_eq layer 0 (w, h, d) (bw, bh, bd) bytes L sizes hsz (by omega) hfit
    simpa using this
  · intro m m2 hmm2 hm2L
    have hpos : ∀ b ∈ sizes, 0 < b := by
      intro b hb
      obtain ⟨i, hiL, hfi⟩ := optionMapM_mem _ _ _ hsz b hb
      exact mip_size_pos _ _ _ _ _ _ _ _ hbw hbh hbd hbytes (mip_dimension_pos w i)
        (mip_dimension_pos h i) (mip_dimension_pos d i) hfi
    refine ⟨_, _, calculate_offset_eq layer m (w, h, d) (bw, bh, bd) bytes L sizes hsz
      (by omega) hfit, calculate_offset_eq layer m2 (w, h, d) (bw, bh, bd) bytes L sizes hsz
      (by omega) hfit, ?_⟩
    have := sum_take_lt_of_pos sizes m m2 hmm2 (by omega) hpos
    omega

/-- Witness for C8 at the concrete geometry of the spec example: dimensions
(8,8,8), blocks (4,4,4), 16 block bytes, 4 mips per layer, layer 2; the
per-level sizes are 128, 16, 16, 16. -/
theorem c8_witness :
    calculate_offset 0 0 (8, 8, 8) (4, 4, 4) 16 4 = some 0 ∧
    calculate_offset 2 0 (8, 8, 8) (4, 4, 4) 16 4 =
      some (2 * ([128, 16, 16, 16] : List Nat).sum) ∧
    (∃ om om2, calculate_offset 2 0 (8, 8, 8) (4, 4, 4) 16 4 = some om ∧
      calculate_offset 2 2 (8, 8, 8) (4, 4, 4) 16 4 = some om2 ∧ om < om2) := by
  have hmain := c8_level_offset_algebra 8 8 8 4 4 4 16 4 2 [128, 16, 16, 16]
    (by decide) (by decide) (by decide) (by decide) (by decide) (by decide) (by decide)
  exact ⟨hmain.1, hmain.2.1, hmain.2.2 0 2 (by decide) (by decide)⟩

/-- C10: the dimension validation of encode_surface_rgba8 rejects with
NonIntegralDimensionsInBlocks exactly when the base width or height is not
divisible by the block width or height; hence a zero width or height (0 is
divisible by everything) passes the validation, the orchestrator raises no
InvalidDimensions, and the base level is handed to the encoder with every
dimension clamped up to a full block, observed here through a probe encoder
that records its width, height and depth arguments in its error payload. -/
theorem c10_zero_dims_pass_validation_and_base_is_clamped (surface : SurfaceRgba8)
    (format : ImageFormat) (quality : Quality) (mipmaps : Mipmaps) :
    ((surface.width % format.block_dimensions.1 ≠ 0 ∨
        surface.height % format.block_dimensions.2.1 ≠ 0) →
      ∀ enc : EncodeFn, encode_surface_rgba8 enc surface format quality mipmaps =
        some (.error (.NonIntegralDimensionsInBlocks surface.width surface.height
          surface.depth format.block_dimensions.1 format.block_dimensions.2.1))) ∧
    (surface.width % format.block_dimensions.1 = 0 →
      surface.height % format.block_dimensions.2.1 = 0 →
      encode_surface_rgba8 probe_encoder surface format quality mipmaps =
        some (.error (.NotEnoughData
          ((max surface.width format.block_dimensions.1 * 4294967296 +
            max surface.height format.block_dimensions.2.1) * 4294967296 +
            max surface.depth format.block_dimensions.2.2) 0))) := by
  constructor
  · intro h enc
    exact encode_nonintegral_reject enc surface format quality mipmaps h
  · intro hw hh
    unfold encode_surface_rgba8
    rw [if_neg (by simp [hw, hh])]
    rfl

/-- Witness for C10: a 0 x 4 x 0 surface against BC7 passes the validation
and its base encode call receives the block-clamped dimensions (4, 4, 1),
while a 5 x 3 x 1 surface against BC1 is rejected with the offending
dimensions. -/
theorem c10_witness :
    encode_surface_rgba8 probe_encoder (SurfaceRgba8.mk 0 4 0 1 1 []) .BC7Unorm .Fast
        .GeneratedAutomatic =
      some (.error (.NotEnoughData ((4 * 4294967296 + 4) * 4294967296 + 1) 0)) ∧
    encode_surface_rgba8 const_byte_encoder (SurfaceRgba8.mk 5 3 1 1 1 []) .BC1Unorm .Normal
        .Disabled =
      some (.error (.NonIntegralDimensionsInBlocks 5 3 1 4 4)) := by
  constructor
  · exact (c10_zero_dims_pass_validation_and_base_is_clamped (SurfaceRgba8.mk 0 4 0 1 1 [])
      .BC7Unorm .Fast .GeneratedAutomatic).2 (by decide) (by decide)
  · exact (c10_zero_dims_pass_validation_and_base_is_clamped (SurfaceRgba8.mk 5 3 1 1 1 [])
      .BC1Unorm .Normal .Disabled).1 (by decide) const_byte_encoder

/-- A successful mip_size carries exactly the product of the ceil divisions
and the block byte size. -/
theorem mip_size_some_val (ww hh dd bw bh bd bytes s : Nat)
    (hs : mip_size ww hh dd bw bh bd bytes = some s) :
    s = div_round_up ww bw * div_round_up hh bh * div_round_up dd bd * bytes := by
  rw [mip_size_closed_form] at hs
  by_cases hc : div_round_up ww bw * div_round_up hh bh ≤ USIZE_MAX ∧
      div_round_up ww bw * div_round_up hh bh * div_round_up dd bd ≤ USIZE_MAX ∧
      div_round_up ww bw * div_round_up hh bh * div_round_up dd bd * bytes ≤ USIZE_MAX
  · rw [if_pos hc] at hs
    exact ((Option.some.injEq _ _).mp hs).symm
  · rw [if_neg hc] at hs
    cases hs

/-- The per-level size list produced inside calculate_offset reads back
pointwise as the block-rounded size formula of the level. -/
theorem sizes_getD_eq (w h d bw bh bd bytes L : Nat) (sizes : List Nat)
    (hsz : (List.range L).mapM (fun i => mip_size (mip_dimension w i) (mip_dimension h i)
      (mip_dimension d i) bw bh bd bytes) = some sizes)
    (m : Nat) (hm : m < L) :
    sizes.getD m 0 = div_round_up (mip_dimension w m) bw * div_round_up (mip_dimension h m) bh *
      div_round_up (mip_dimension d m) bd * bytes := by
  have hpt := optionMapM_getD _ 0 0 (List.range L) sizes hsz m (by simpa using hm)
  have hrg : (List.range L).getD m 0 = m := by
    rw [List.getD_eq_getElem _ _ (by simpa using hm), List.getElem_range]
  rw [hrg] at hpt
  exact mip_size_some_val _ _ _ _ _ _ _ _ hpt

/-- Unfolding equation for one step of the decode loop. -/
theorem decode_mip_levels_cons (pix : PixelFn) (w h d : Nat) (fmt : ImageFormat)
    (buf : List Nat) (L layer mipmap : Nat) (rest : List (Nat × Nat)) :
    decode_mip_levels pix w h d fmt buf L ((layer, mipmap) :: rest) =
      match calculate_offset layer mipmap (w, h, d) fmt.block_dimensions
          fmt.block_size_in_bytes L with
      | none => none
      | some offset =>
        if offset ≤ buf.length then
          match decode_data_rgba8 pix (mip_dimension w mipmap) (mip_dimension h mipmap)
              (mip_dimension d mipmap) fmt (buf.drop offset) with
          | .error e => some (.error e)
          | .ok level =>
            match decode_mip_levels pix w h d fmt buf L rest with
            | none => none
            | some (.error e) => some (.error e)
            | some (.ok restData) => some (.ok (level ++ restData))
        else none := rfl

/-- The decode loop processes an appended pair list segment by segment:
levels are independent, each offset recomputed from its own pair, so the
first panic or error wins and successes concatenate. -/
theorem decode_mip_levels_append (pix : PixelFn) (w h d : Nat) (fmt : ImageFormat)
    (buf : List Nat) (L : Nat) :
    ∀ (ps qs : List (Nat × Nat)),
      decode_mip_levels pix w h d fmt buf L (ps ++ qs) =
        match decode_mip_levels pix w h d fmt buf L ps with
        | none => none
        | some (.error e) => some (.error e)
        | some (.ok o) =>
          match decode_mip_levels pix w h d fmt buf L qs with
          | none => none
          | some (.error e) => some (.error e)
          | some (.ok o2) => some (.ok (o ++ o2)) := by
  intro ps
  induction ps with
  | nil =>
    intro qs
    rw [List.nil_append]
    cases hq : decode_mip_levels pix w h d fmt buf L qs with
    | none => rfl
    | some r => cases r <;> rfl
  | cons p ps ih =>
    intro qs
    rcases p with ⟨layer, mipmap⟩
    rw [List.cons_append, decode_mip_levels_cons, decode_mip_levels_cons]
    cases hco : calculate_offset layer mipmap (w, h, d) fmt.block_dimensions
        fmt.block_size_in_bytes L with
    | none => rfl
    | some offset =>
      dsimp only
      by_cases hle : offset ≤ buf.length
      · rw [if_pos hle, if_pos hle]
        cases hdd : decode_data_rgba8 pix (mip_dimension w mipmap) (mip_dimension h mipmap)
            (mip_dimension d mipmap) fmt (buf.drop offset) with
        | error e => rfl
        | ok level =>
          dsimp only
          rw [ih qs]
          cases hp : decode_mip_levels pix w h d fmt buf L ps with
          | none => rfl
          | some rp =>
            cases rp with
            | error e => rfl
            | ok o =>
              dsimp only
              cases hqq : decode_mip_levels pix w h d fmt buf L qs with
              | none => rfl
              | some rq =>
                cases rq with
                | error e => rfl
                | ok o2 => simp [List.append_assoc]
      · rw [if_neg hle, if_neg hle]

/-- Closed form of the spec-modelled per-level decode. -/
theorem decode_data_rgba8_eq (pix : PixelFn) (w1 h1 d1 : Nat) (fmt : ImageFormat)
    (data : List Nat) :
    decode_data_rgba8 pix w1 h1 d1 fmt data =
      if data.length < div_round_up w1 fmt.block_dimensions.1 *
          div_round_up h1 fmt.block_dimensions.2.1 * div_round_up d1 fmt.block_dimensions.2.2 *
          fmt.block_size_in_bytes then
        .error (.NotEnoughData (div_round_up w1 fmt.block_dimensions.1 *
          div_round_up h1 fmt.block_dimensions.2.1 * div_round_up d1 fmt.block_dimensions.2.2 *
          fmt.block_size_in_bytes) data.length)
      else .ok (pix w1 h1 d1 fmt data) := rfl

/-- One layer of the decode loop, starting at an arbitrary mip index whose
offset is within the buffer: if the buffer ends before the end of this
layer the loop stops with a NotEnoughData typed error, and if the buffer
reaches the end of this layer the whole remaining segment of the layer
decodes successfully. -/
theorem decode_seg (pix : PixelFn) (fmt : ImageFormat) (w h d L : Nat) (buf : List Nat)
    (sizes : List Nat)
    (hsz : (List.range L).mapM (fun i => mip_size (mip_dimension w i) (mip_dimension h i)
      (mip_dimension d i) fmt.block_dimensions.1 fmt.block_dimensions.2.1
      fmt.block_dimensions.2.2 fmt.block_size_in_bytes) = some sizes)
    (l : Nat) (hfitl : (l + 1) * sizes.sum ≤ USIZE_MAX) :
    ∀ k m, m + k = L → l * sizes.sum + (sizes.take m).sum ≤ buf.length →
      (buf.length < (l + 1) * sizes.sum →
        ∃ e a, decode_mip_levels pix w h d fmt buf L
          ((List.range' m k).map (fun mm => (l, mm))) = some (.error (.NotEnoughData e a))) ∧
      ((l + 1) * sizes.sum ≤ buf.length →
        ∃ out, decode_mip_levels pix w h d fmt buf L
          ((List.range' m k).map (fun mm => (l, mm))) = some (.ok out)) := by
  have hlen : sizes.length = L := by simpa using optionMapM_length _ _ _ hsz
  intro k
  induction k with
  | zero =>
    intro m hmk hoff
    have hmL : m = L := by omega
    subst hmL
    have htakeL : (sizes.take m).sum = sizes.sum := by
      rw [List.take_of_length_le (le_of_eq hlen)]
    constructor
    · intro hshort
      exfalso
      have hexp : (l + 1) * sizes.sum = l * sizes.sum + sizes.sum := by ring
      omega
    · intro hfull
      exact ⟨[], rfl⟩
  | succ k ihk =>
    intro m hmk hoff
    have hmlt : m < L := by omega
    have hofs := calculate_offset_eq l m (w, h, d) fmt.block_dimensions
      fmt.block_size_in_bytes L sizes hsz (by omega) hfitl
    have hsm := sizes_getD_eq w h d fmt.block_dimensions.1 fmt.block_dimensions.2.1
      fmt.block_dimensions.2.2 fmt.block_size_in_bytes L sizes hsz m hmlt
    have htsucc := sum_take_succ_getD sizes m (by omega)
    have htle := sum_take_le sizes (m + 1)
    have hexp : (l + 1) * sizes.sum = l * sizes.sum + sizes.sum := by ring
    have hdlen : (buf.drop (l * sizes.sum + (sizes.take m).sum)).length =
        buf.length - (l * sizes.sum + (sizes.take m).sum) := List.length_drop _ _
    rw [List.range'_succ, List.map_cons, decode_mip_levels_cons, hofs]
    dsimp only
    rw [if_pos hoff, decode_data_rgba8_eq]
    set P := div_round_up (mip_dimension w m) fmt.block_dimensions.1 *
      div_round_up (mip_dimension h m) fmt.block_dimensions.2.1 *
      div_round_up (mip_dimension d m) fmt.block_dimensions.2.2 *
      fmt.block_size_in_bytes with hPdef
    by_cases hen : (buf.drop (l * sizes.sum + (sizes.take m).sum)).length < P
    · rw [if_pos hen]
      constructor
      · intro hshort
        exact ⟨_, _, rfl⟩
      · intro hfull
        exfalso
        omega
    · rw [if_neg hen]
      dsimp only
      have hoff2 : l * sizes.sum + (sizes.take (m + 1)).sum ≤ buf.length := by
        omega
      have hrest := ihk (m + 1) (by omega) hoff2
      constructor
      · intro hshort
        obtain ⟨e, a, heq⟩ := hrest.1 hshort
        rw [heq]
        exact ⟨e, a, rfl⟩
      · intro hfull
        obtain ⟨out, heq⟩ := hrest.2 hfull
        rw [heq]
        exact ⟨_, rfl⟩

/-- The full layer-major mip-major decode loop, starting at an arbitrary
layer whose start offset is within the buffer: a buffer too short for the
declared layers yields a NotEnoughData typed error, and a buffer covering
them all decodes successfully. -/
theorem decode_layers (pix : PixelFn) (fmt : ImageFormat) (w h d L : Nat) (buf : List Nat)
    (sizes : List Nat)
    (hsz : (List.range L).mapM (fun i => mip_size (mip_dimension w i) (mip_dimension h i)
      (mip_dimension d i) fmt.block_dimensions.1 fmt.block_dimensions.2.1
      fmt.block_dimensions.2.2 fmt.block_size_in_bytes) = some sizes)
    (layers : Nat) (hfitL : layers * sizes.sum ≤ USIZE_MAX) :
    ∀ j l, l + j = layers → l * sizes.sum ≤ buf.length →
      (buf.length < layers * sizes.sum →
        ∃ e a, decode_mip_levels pix w h d fmt buf L
          ((List.range' l j).flatMap (fun ll => (List.range L).map (fun mm => (ll, mm)))) =
          some (.error (.NotEnoughData e a))) ∧
      (layers * sizes.sum ≤ buf.length →
        ∃ out, decode_mip_levels pix w h d fmt buf L
          ((List.range' l j).flatMap (fun ll => (List.range L).map (fun mm => (ll, mm)))) =
          some (.ok out)) := by
  intro j
  induction j with
  | zero =>
    intro l hlj hoff
    have hlL : l = layers := by omega
    subst hlL
    constructor
    · intro hshort
      exfalso
      omega
    · intro hfull
      exact ⟨[], rfl⟩
  | succ j ihj =>
    intro l hlj hoff
    have hllt : l < layers := by omega
    have hfitl : (l + 1) * sizes.sum ≤ USIZE_MAX := by
      have hstep : (l + 1) * sizes.sum ≤ layers * sizes.sum :=
        Nat.mul_le_mul_right _ (by omega)
      omega
    have hlayernext : (l + 1) * sizes.sum = l * sizes.sum + sizes.sum := by ring
    have hseg := decode_seg pix fmt w h d L buf sizes hsz l hfitl L 0 (by omega)
      (by simpa using hoff)
    rw [List.range'_succ, List.flatMap_cons, decode_mip_levels_append]
    have hmono : (l + 1) * sizes.sum ≤ layers * sizes.sum :=
      Nat.mul_le_mul_right _ (by omega)
    by_cases hc : (l + 1) * sizes.sum ≤ buf.length
    · obtain ⟨o1, hseg1⟩ := hseg.2 hc
      have hrange : (List.range L).map (fun mm => (l, mm)) =
          (List.range' 0 L).map (fun mm => (l, mm)) := by
        rw [List.range_eq_range']
      rw [← hrange] at hseg1
      rw [hseg1]
      dsimp only
      have hrest := ihj (l + 1) (by omega) hc
      constructor
      · intro hshort
        obtain ⟨e, a, heq⟩ := hrest.1 hshort
        rw [heq]
        exact ⟨e, a, rfl⟩
      · intro hfull
        obtain ⟨o2, heq⟩ := hrest.2 hfull
        rw [heq]
        exact ⟨_, rfl⟩
    · have hlt : buf.length < (l + 1) * sizes.sum := by omega
      obtain ⟨e, a, hseg1⟩ := hseg.1 hlt
      have hrange : (List.range L).map (fun mm => (l, mm)) =
          (List.range' 0 L).map (fun mm => (l, mm)) := by
        rw [List.range_eq_range']
      rw [← hrange] at hseg1
      rw [hseg1]
      constructor
      · intro hshort
        exact ⟨e, a, rfl⟩
      · intro hfull
        exfalso
        omega

/-- C4 amended: for every surface whose per-level block-rounded sizes all
compute without checked-multiplication overflow and whose layer arithmetic
fits in the machine word, a byte buffer too short for the declared layers
and mips makes decode_surface_rgba8 return the NotEnoughData typed error
with no partial output (the call is all-or-nothing by its result type), and
a covering buffer makes the whole call succeed.  The unamended claim fails
when a level size overflows: the reference then panics instead (see the
counterexample). -/
theorem c4_decode_all_or_nothing (pix : PixelFn) (surface : Surface) (sizes : List Nat)
    (hsz : (List.range surface.mipmaps).mapM (fun i =>
      mip_size (mip_dimension surface.width i) (mip_dimension surface.height i)
        (mip_dimension surface.depth i) surface.image_format.block_dimensions.1
        surface.image_format.block_dimensions.2.1 surface.image_format.block_dimensions.2.2
        surface.image_format.block_size_in_bytes) = some sizes)
    (hfit : surface.layers * sizes.sum ≤ USIZE_MAX) :
    (surface.data.length < surface.layers * sizes.sum →
      ∃ e a, decode_surface_rgba8 pix surface = some (.error (.NotEnoughData e a))) ∧
    (surface.layers * sizes.sum ≤ surface.data.length →
      ∃ s, decode_surface_rgba8 pix surface = some (.ok s)) := by
  have hall := decode_layers pix surface.image_format surface.width surface.height
    surface.depth surface.mipmaps surface.data sizes hsz surface.layers hfit
    surface.layers 0 (by omega) (by omega)
  have hpairs : layer_mip_pairs surface.layers surface.mipmaps =
      (List.range' 0 surface.layers).flatMap (fun ll =>
        (List.range surface.mipmaps).map (fun mm => (ll, mm))) := by
    unfold layer_mip_pairs
    rw [List.range_eq_range']
  constructor
  · intro hshort
    obtain ⟨e, a, heq⟩ := hall.1 hshort
    refine ⟨e, a, ?_⟩
    unfold decode_surface_rgba8
    rw [hpairs, heq]
  · intro hfull
    obtain ⟨out, heq⟩ := hall.2 hfull
    unfold decode_surface_rgba8
    rw [hpairs, heq]
    exact ⟨_, rfl⟩

/-- Witness for C4 at a concrete input: a 4x4x1 R8G8B8A8 surface declaring
2 levels needs 64 + 16 = 80 bytes but carries only 70; decoding returns the
NotEnoughData typed error. -/
theorem c4_witness :
    ∃ e a, decode_surface_rgba8 null_pixels
      (Surface.mk 4 4 1 1 2 .R8G8B8A8Unorm (List.replicate 70 0)) =
      some (.error (.NotEnoughData e a)) := by
  have hmain := c4_decode_all_or_nothing null_pixels
    (Surface.mk 4 4 1 1 2 .R8G8B8A8Unorm (List.replicate 70 0)) [64, 16]
    (by decide) (by decide)
  exact hmain.1 (by decide)
